import Mathlib

/-!
Verification of the persistence and analytics layer of the
financial-sentiment-analysis repository (src/backend/database.py).

The SQLite-backed repositories are shallowly embedded: the database file
becomes an explicit `Store` value holding the rows of each table, every
repository method becomes a Lean function on `Store`, SQL join/filter
semantics are spelled out as list operations (inner joins contribute one
result row per matching pair, so a row may appear with multiplicity before
`DISTINCT` deduplication), Python floats become `ℚ`, and Python `KeyError`
propagation becomes `Except String`.

Table uniqueness constraints (unique ticker symbol, sector name, industry
name, a primary-key post id, and pair-unique link rows) are not declared in
src/ (the schema-creation code is not among the provided files); they are
modelled from the spec, which requires "uniqueness constraints on ticker
symbol, sector name, industry name, and each link-table pair".  Operations
use the conflict-resolution behaviour of the source (`INSERT OR IGNORE`,
`INSERT OR REPLACE`, `ON CONFLICT(symbol) DO UPDATE`), and theorems that
need a constraint take it as an explicit `Nodup` hypothesis.
-/

namespace FinSent

/-- Python truthiness for an optional string argument: both `None` and the
empty string are falsy (the source guards every filter with `if ticker:`,
`if sector:`, and so on). -/
def truthy : Option String → Bool
  | none => false
  | some s => s ≠ ""

/-- Contents of the `sentiment_scores` TEXT column.  `save_post` writes
`json.dumps` of a label→float map (modelled structurally by `obj`); the
column may also hold SQL NULL or the empty string, the two falsy values
`_row_to_post` guards against. -/
inductive ScoresCell where
  | null : ScoresCell
  | emptyStr : ScoresCell
  | obj : List (String × ℚ) → ScoresCell
deriving DecidableEq

/-- A row of the `posts` table, one field per column. -/
structure PostRow where
  id : String
  reddit_id : String
  url : String
  subreddit : String
  title : String
  text : String
  author : String
  created_at : String
  timezone : String
  sentiment_label : String
  sentiment_score : ℚ
  sentiment_scores : ScoresCell
  analyzed_at : String
deriving DecidableEq

/-- A row of the `tickers` table. -/
structure TickerRow where
  id : ℕ
  symbol : String
  company_name : Option String
  sector_id : Option ℕ
  industry_id : Option ℕ
deriving DecidableEq

/-- A row of the `sectors` or `industries` table. -/
structure NameRow where
  id : ℕ
  name : String
deriving DecidableEq

/-- The whole database state: one list of rows per table, plus the next
rowid for each autoincremented id column.  Link tables hold
(post id, dimension id) pairs. -/
structure Store where
  posts : List PostRow
  tickers : List TickerRow
  sectors : List NameRow
  industries : List NameRow
  post_tickers : List (String × ℕ)
  post_industries : List (String × ℕ)
  post_sectors : List (String × ℕ)
  nextTickerId : ℕ
  nextSectorId : ℕ
  nextIndustryId : ℕ
deriving DecidableEq

/-- The nested sentiment object of a post dictionary returned to callers. -/
structure Sentiment where
  label : String
  score : ℚ
  scores : List (String × ℚ)
deriving DecidableEq

/-- A post dictionary as returned by the read paths. -/
structure Post where
  id : String
  reddit_id : String
  url : String
  subreddit : String
  title : String
  text : String
  author : String
  created_at : String
  timezone : String
  sentiment : Sentiment
  analyzed_at : String
deriving DecidableEq

/-- Embeds `PostRepository._row_to_post`: converts a database row to a post
dictionary.  A falsy `sentiment_scores` cell (NULL or the empty string)
becomes the empty map, otherwise the stored JSON object is decoded
(`json.loads` inverts the `json.dumps` done by `save_post`). -/
def row_to_post (r : PostRow) : Post :=
  { id := r.id
    reddit_id := r.reddit_id
    url := r.url
    subreddit := r.subreddit
    title := r.title
    text := r.text
    author := r.author
    created_at := r.created_at
    timezone := r.timezone
    sentiment :=
      { label := r.sentiment_label
        score := r.sentiment_score
        scores :=
          match r.sentiment_scores with
          | ScoresCell.null => []
          | ScoresCell.emptyStr => []
          | ScoresCell.obj m => m }
    analyzed_at := r.analyzed_at }

/-- The nested `sentiment` dictionary of the input to `save_post`; every
field may be absent (a missing Python dict key). -/
structure SentimentInput where
  label : Option String
  score : Option ℚ
  scores : Option (List (String × ℚ))
deriving DecidableEq

/-- The `post_data` dictionary passed to `save_post`; every key may be
absent. -/
structure PostInput where
  id : Option String
  reddit_id : Option String
  url : Option String
  link : Option String
  subreddit : Option String
  title : Option String
  text : Option String
  author : Option String
  author_id : Option String
  created_at : Option String
  timezone : Option String
  sentiment : Option SentimentInput
deriving DecidableEq

/-- Python subscripting `d[k]`: produces the value or raises `KeyError(k)`,
modelled as `Except.error` carrying the missing key. -/
def req {α : Type} (o : Option α) (key : String) : Except String α :=
  match o with
  | some v => Except.ok v
  | none => Except.error key

/-- Embeds `PostRepository.save_post`.  `now` stands for
`datetime.utcnow().isoformat()`.  The `INSERT OR REPLACE` upsert removes
any existing row with the same id and appends the new row; missing
required dictionary keys raise `KeyError`, in the evaluation order of the
source's parameter tuple (id, text, created_at, sentiment, label, score,
scores). -/
def save_post (s : Store) (pd : PostInput) (now : String) :
    Except String (Store × String) := do
  let rid := pd.reddit_id.getD ((pd.id.getD "").replace "reddit_" "")
  let pid ← req pd.id "id"
  let tx ← req pd.text "text"
  let ca ← req pd.created_at "created_at"
  let sen ← req pd.sentiment "sentiment"
  let lbl ← req sen.label "label"
  let sc ← req sen.score "score"
  let scs ← req sen.scores "scores"
  let row : PostRow :=
    { id := pid
      reddit_id := rid
      url := pd.url.getD (pd.link.getD "")
      subreddit := pd.subreddit.getD ""
      title := pd.title.getD ""
      text := tx
      author := pd.author.getD (pd.author_id.getD "unknown")
      created_at := ca
      timezone := pd.timezone.getD "UTC"
      sentiment_label := lbl
      sentiment_score := sc
      sentiment_scores := ScoresCell.obj scs
      analyzed_at := now }
  Except.ok ({ s with posts := s.posts.filter (fun r => r.id ≠ pid) ++ [row] }, pid)

/-- The TEXT-column comparison of SQLite (BINARY collation, bytewise):
on these strings it is the lexicographic order on the character
sequences, stated on `String.data` (the same order as Lean's `String ≤`,
in a form the kernel can evaluate). -/
def strLe (a b : String) : Prop := a.data ≤ b.data

instance (a b : String) : Decidable (strLe a b) :=
  inferInstanceAs (Decidable (a.data ≤ b.data))

/-- The `ORDER BY created_at DESC` relation on post rows. -/
def createdDesc (a b : PostRow) : Prop := strLe b.created_at a.created_at

instance : DecidableRel createdDesc := fun a b =>
  inferInstanceAs (Decidable (strLe b.created_at a.created_at))

instance : IsTotal PostRow createdDesc :=
  ⟨fun a b => le_total b.created_at.data a.created_at.data⟩

instance : IsTrans PostRow createdDesc :=
  ⟨fun _ _ _ h1 h2 => le_trans (α := List Char) h2 h1⟩

/-- Sorting by creation timestamp descending (SQLite guarantees no
particular tie order; insertion sort fixes one). -/
def sortPosts (l : List PostRow) : List PostRow := l.insertionSort createdDesc

/-- Embeds `PostRepository.get_recent_posts` (`ORDER BY created_at DESC
LIMIT ? OFFSET ?`). -/
def get_recent_posts (s : Store) (limit offset : ℕ) : List Post :=
  (((sortPosts s.posts).drop offset).take limit).map row_to_post

/-- Embeds `PostRepository.get_post_by_id` (`WHERE id = ?`, `fetchone`,
`None` when absent). -/
def get_post_by_id (s : Store) (pid : String) : Option Post :=
  (s.posts.find? (fun p => p.id = pid)).map row_to_post

/-- Number of result rows the join
`INNER JOIN post_tickers pt ON p.id = pt.post_id INNER JOIN tickers t ON
pt.ticker_id = t.id` with condition `t.symbol = ?` contributes for the
post `pid`: one per (link row, ticker row) pair that matches. -/
def tickerMult (s : Store) (pid sym : String) : ℕ :=
  (s.post_tickers.flatMap (fun l =>
    if l.1 = pid then s.tickers.filter (fun t => t.id = l.2 ∧ t.symbol = sym)
    else [])).length

/-- Join multiplicity of `post_industries ⋈ industries` with
`i.name = ?` for the post `pid`. -/
def industryMult (s : Store) (pid nm : String) : ℕ :=
  (s.post_industries.flatMap (fun l =>
    if l.1 = pid then s.industries.filter (fun i => i.id = l.2 ∧ i.name = nm)
    else [])).length

/-- Join multiplicity of `post_sectors ⋈ sectors` with `s.name = ?` for the
post `pid`. -/
def sectorMult (s : Store) (pid nm : String) : ℕ :=
  (s.post_sectors.flatMap (fun l =>
    if l.1 = pid then s.sectors.filter (fun c => c.id = l.2 ∧ c.name = nm)
    else [])).length

/-- The `created_at >= start_date` / `created_at <= end_date` WHERE
conditions, each added only when the argument is truthy. -/
def dateCond (sd ed : Option String) (p : PostRow) : Prop :=
  (truthy sd → strLe (sd.getD "") p.created_at) ∧
  (truthy ed → strLe p.created_at (ed.getD ""))

instance (sd ed : Option String) (p : PostRow) : Decidable (dateCond sd ed p) :=
  inferInstanceAs (Decidable (And _ _))

/-- The row-level WHERE conditions of the filtered queries: sentiment
label plus the date range. -/
def rowCond (snt sd ed : Option String) (p : PostRow) : Prop :=
  (truthy snt → p.sentiment_label = snt.getD "") ∧ dateCond sd ed p

instance (snt sd ed : Option String) (p : PostRow) : Decidable (rowCond snt sd ed p) :=
  inferInstanceAs (Decidable (And _ _))

/-- The multiset of result rows of the dynamically built
`SELECT ... FROM posts p [dimension joins] WHERE ...` query, before any
`DISTINCT`: each post row appears once per combination of matching link
rows of the dimensions whose filter is truthy (an absent dimension filter
adds no join, multiplicity 1), provided it passes `cond`. -/
def dimJoinRows (s : Store) (tk ind sec : Option String) (cond : PostRow → Prop)
    [DecidablePred cond] : List PostRow :=
  s.posts.flatMap (fun p =>
    if cond p then
      List.replicate
        ((if truthy tk then tickerMult s p.id (tk.getD "") else 1) *
          ((if truthy ind then industryMult s p.id (ind.getD "") else 1) *
            (if truthy sec then sectorMult s p.id (sec.getD "") else 1))) p
    else [])

/-- Join rows of `get_posts_filtered` / `count_posts_filtered` (they build
the same joins and conditions). -/
def filterJoinRows (s : Store) (tk ind sec snt sd ed : Option String) : List PostRow :=
  dimJoinRows s tk ind sec (rowCond snt sd ed)

/-- Optional `LIMIT`: `none` models an unbounded limit (SQLite
`LIMIT -1`). -/
def maybeTake {α : Type} : Option ℕ → List α → List α
  | none, l => l
  | some n, l => l.take n

/-- Embeds `PostRepository.get_posts_filtered` up to the final
`_row_to_post` conversion: `SELECT DISTINCT p.*` deduplicates the join
rows, then `ORDER BY p.created_at DESC LIMIT ? OFFSET ?`. -/
def get_posts_filtered_rows (s : Store) (tk ind sec snt sd ed : Option String)
    (limit : Option ℕ) (offset : ℕ) : List PostRow :=
  maybeTake limit ((sortPosts (filterJoinRows s tk ind sec snt sd ed).dedup).drop offset)

/-- Embeds `PostRepository.get_posts_filtered` (rows converted to post
dictionaries). -/
def get_posts_filtered (s : Store) (tk ind sec snt sd ed : Option String)
    (limit : Option ℕ) (offset : ℕ) : List Post :=
  (get_posts_filtered_rows s tk ind sec snt sd ed limit offset).map row_to_post

/-- Embeds `PostRepository.count_posts_filtered`
(`SELECT COUNT(DISTINCT p.id)` over the same joins and conditions). -/
def count_posts_filtered (s : Store) (tk ind sec snt sd ed : Option String) : ℕ :=
  ((filterJoinRows s tk ind sec snt sd ed).map (fun p => p.id)).dedup.length

/-- Resolution of a ticker symbol to its id:
`SELECT id FROM tickers WHERE symbol = ?` with `fetchone` (first matching
row, unique under the symbol uniqueness constraint). -/
def resolveTicker (s : Store) (sym : String) : Option ℕ :=
  (s.tickers.find? (fun t => t.symbol = sym)).map (fun t => t.id)

/-- Resolution of an industry name to its id. -/
def resolveIndustry (s : Store) (nm : String) : Option ℕ :=
  (s.industries.find? (fun i => i.name = nm)).map (fun i => i.id)

/-- Resolution of a sector name to its id. -/
def resolveSector (s : Store) (nm : String) : Option ℕ :=
  (s.sectors.find? (fun c => c.name = nm)).map (fun c => c.id)

/-- One `INSERT OR IGNORE` into a pair-unique link table: inserted only
when the pair is not already present (the link-table pair uniqueness
constraint is modelled from the spec). -/
def insertIgnorePair (l : List (String × ℕ)) (pr : String × ℕ) : List (String × ℕ) :=
  if pr ∈ l then l else l ++ [pr]

/-- The shared insertion loop of the linking methods: for each name, look
its id up through `f` (`SELECT ... fetchone`); when it resolves, insert
the link with `INSERT OR IGNORE`, otherwise fall through to the next name
(the unresolved name is silently skipped). -/
def linkFold (p : String) (f : String → Option ℕ) (base : List (String × ℕ))
    (names : List String) : List (String × ℕ) :=
  names.foldl (fun acc nm =>
    match f nm with
    | some i => insertIgnorePair acc (p, i)
    | none => acc) base

/-- Embeds `TickerRepository.link_post_to_tickers`: delete all ticker
links of the post, then for each symbol insert a link when the symbol
resolves and silently skip it otherwise. -/
def link_post_to_tickers (s : Store) (post_id : String) (ticker_symbols : List String) :
    Store :=
  let links := linkFold post_id (resolveTicker s)
    (s.post_tickers.filter (fun l => l.1 ≠ post_id)) ticker_symbols
  { s with post_tickers := links }

/-- Embeds `TickerRepository.link_post_to_industries_and_sectors`: delete
all industry and sector links of the post, then insert one link per name
that resolves, independently for each dimension. -/
def link_post_to_industries_and_sectors (s : Store) (post_id : String)
    (industries sectors : List String) : Store :=
  let linksI := linkFold post_id (resolveIndustry s)
    (s.post_industries.filter (fun l => l.1 ≠ post_id)) industries
  let linksS := linkFold post_id (resolveSector s)
    (s.post_sectors.filter (fun l => l.1 ≠ post_id)) sectors
  { s with post_industries := linksI, post_sectors := linksS }

/-- The `INSERT OR IGNORE INTO ... (name) VALUES (?)` followed by
`SELECT id ... WHERE name = ?` pattern on the sectors/industries tables:
returns the updated table, the updated next id, and the id of the row
with that name. -/
def getOrCreateName (rows : List NameRow) (next : ℕ) (nm : String) :
    List NameRow × ℕ × ℕ :=
  match rows.find? (fun r => r.name = nm) with
  | some r => (rows, next, r.id)
  | none => (rows ++ [⟨next, nm⟩], next + 1, next)

/-- The row update of `ON CONFLICT(symbol) DO UPDATE SET company_name =
excluded.company_name, sector_id = excluded.sector_id, industry_id =
excluded.industry_id`: applied to the rows carrying the conflicting
symbol (exactly one under the symbol uniqueness constraint); the new
values overwrite unconditionally, also when they are NULL. -/
def updTicker (symbol : String) (c : Option String) (si ii : Option ℕ)
    (u : TickerRow) : TickerRow :=
  if u.symbol = symbol then
    { u with company_name := c, sector_id := si, industry_id := ii }
  else u

/-- The `INSERT INTO tickers ... ON CONFLICT(symbol) DO UPDATE` statement
on the tickers table: on a symbol conflict the conflicting rows are
updated in place (`updTicker`), otherwise a fresh row is appended with
the next rowid. -/
def upsertTicker (l : List TickerRow) (nextId : ℕ) (symbol : String)
    (c : Option String) (si ii : Option ℕ) : List TickerRow :=
  if l.any (fun t => t.symbol = symbol) then l.map (updTicker symbol c si ii)
  else l ++ [⟨nextId, symbol, c, si, ii⟩]

/-- Embeds `TickerRepository.save_ticker`: get-or-create the sector and
industry rows when their names are truthy, then upsert the ticker row with
`ON CONFLICT(symbol) DO UPDATE` (company_name, sector_id and industry_id
are overwritten with the new values unconditionally), and return the id of
the row with that symbol.  The final `fetchone` cannot miss because the
upsert guarantees such a row, so the unreachable default is 0. -/
def save_ticker (s : Store) (symbol : String)
    (company_name sector industry : Option String) : Store × ℕ :=
  let gs :=
    if truthy sector then
      let g := getOrCreateName s.sectors s.nextSectorId (sector.getD "")
      (g.1, g.2.1, some g.2.2)
    else (s.sectors, s.nextSectorId, (none : Option ℕ))
  let gi :=
    if truthy industry then
      let g := getOrCreateName s.industries s.nextIndustryId (industry.getD "")
      (g.1, g.2.1, some g.2.2)
    else (s.industries, s.nextIndustryId, (none : Option ℕ))
  let tickers2 := upsertTicker s.tickers s.nextTickerId symbol company_name gs.2.2 gi.2.2
  ({ s with sectors := gs.1, nextSectorId := gs.2.1,
            industries := gi.1, nextIndustryId := gi.2.1,
            tickers := tickers2,
            nextTickerId :=
              if s.tickers.any (fun t => t.symbol = symbol) then s.nextTickerId
              else s.nextTickerId + 1 },
    ((tickers2.find? (fun t => t.symbol = symbol)).map (fun t => t.id)).getD 0)

/-- Rounding to the nearest integer with ties to even, the behaviour of
Python's builtin `round` (the float value is modelled exactly by `ℚ`). -/
def roundHalfEven (q : ℚ) : ℤ :=
  let f := ⌊q⌋
  if q - f < 1 / 2 then f
  else if (1 : ℚ) / 2 < q - f then f + 1
  else if f % 2 = 0 then f else f + 1

/-- Python `round(x, 2)`. -/
def pyRound2 (q : ℚ) : ℚ := (roundHalfEven (q * 100) : ℚ) / 100

/-- Result of `get_sentiment_stats`: the total and, per label, the count
and the percentage. -/
structure SentimentStats where
  total : ℕ
  by_sentiment : List (String × ℕ × ℚ)
deriving DecidableEq

/-- The rows `get_sentiment_stats` aggregates: the same dimension joins
and date conditions as the filtered post queries (the stats query has no
sentiment parameter). -/
def statsRows (s : Store) (tk ind sec sd ed : Option String) : List PostRow :=
  dimJoinRows s tk ind sec (rowCond none sd ed)

/-- The `GROUP BY sentiment_label` result of `get_sentiment_stats`: one
(label, COUNT(*)) pair per distinct label among the matching rows. -/
def statsCounts (s : Store) (tk ind sec sd ed : Option String) : List (String × ℕ) :=
  ((statsRows s tk ind sec sd ed).map (fun p => p.sentiment_label)).dedup.map
    (fun lb =>
      (lb, ((statsRows s tk ind sec sd ed).filter
        (fun p => p.sentiment_label = lb)).length))

/-- Embeds `AnalyticsRepository.get_sentiment_stats` (continued): `total`
is accumulated as the sum of the group counts, and the percentage
`round(count / total * 100, 2)` is attached only when the total is
positive (when no row matches there are no groups, so the result is
total 0 with an empty mapping and no division is performed). -/
def get_sentiment_stats (s : Store) (tk ind sec sd ed : Option String) :
    SentimentStats :=
  let counts := statsCounts s tk ind sec sd ed
  let total := (counts.map (fun e => e.2)).sum
  if 0 < total then
    { total := total
      by_sentiment := counts.map (fun e =>
        (e.1, e.2, pyRound2 ((e.2 : ℚ) / (total : ℚ) * 100))) }
  else { total := total, by_sentiment := [] }

/-- Join rows of the market-pulse per-ticker queries
(`FROM tickers t INNER JOIN post_tickers pt ON t.id = pt.ticker_id INNER
JOIN posts p ON pt.post_id = p.id WHERE p.sentiment_label = ? [date
filter]`), tagged with the ticker symbol they are grouped by. -/
def pulseJoinRows (s : Store) (lbl : String) (sd ed : Option String) :
    List (String × PostRow) :=
  s.tickers.flatMap (fun t =>
    (s.post_tickers.filter (fun l => l.2 = t.id)).flatMap (fun l =>
      (s.posts.filter (fun p =>
        p.id = l.1 ∧ p.sentiment_label = lbl ∧ dateCond sd ed p)).map
        (fun p => (t.symbol, p))))

/-- The posts of one `GROUP BY t.symbol` group (with join multiplicity). -/
def pulseGroup (s : Store) (lbl : String) (sd ed : Option String) (sym : String) :
    List PostRow :=
  ((pulseJoinRows s lbl sd ed).filter (fun r => r.1 = sym)).map (fun r => r.2)

/-- `AVG(p.sentiment_score)` of a symbol's group (0 on an empty group,
which never reaches the output since `GROUP BY` only produces inhabited
groups). -/
def pulseAvg (s : Store) (lbl : String) (sd ed : Option String) (sym : String) : ℚ :=
  let g := pulseGroup s lbl sd ed sym
  (g.map (fun p => p.sentiment_score)).sum / (g.length : ℚ)

/-- `COUNT(DISTINCT p.id)` of a symbol's group (the `post_count` column). -/
def pulseCount (s : Store) (lbl : String) (sd ed : Option String) (sym : String) : ℕ :=
  ((pulseGroup s lbl sd ed sym).map (fun p => p.id)).dedup.length

/-- An entry of the `most_positive_stocks` / `most_negative_stocks` lists
of `get_market_pulse`. -/
structure PulseEntry where
  ticker : String
  avg_sentiment : ℚ
  post_count : ℕ
deriving DecidableEq

/-- The `ORDER BY avg_sentiment DESC` relation on the grouped symbols. -/
def avgDesc (s : Store) (lbl : String) (sd ed : Option String) (a b : String) : Prop :=
  pulseAvg s lbl sd ed b ≤ pulseAvg s lbl sd ed a

instance (s : Store) (lbl : String) (sd ed : Option String) :
    DecidableRel (avgDesc s lbl sd ed) := fun _a _b =>
  inferInstanceAs (Decidable (_ ≤ _))

instance (s : Store) (lbl : String) (sd ed : Option String) :
    IsTotal String (avgDesc s lbl sd ed) := ⟨fun _a _b => le_total _ _⟩

instance (s : Store) (lbl : String) (sd ed : Option String) :
    IsTrans String (avgDesc s lbl sd ed) := ⟨fun _ _ _ h1 h2 => le_trans h2 h1⟩

/-- The `ORDER BY avg_sentiment ASC` relation. -/
def avgAsc (s : Store) (lbl : String) (sd ed : Option String) (a b : String) : Prop :=
  pulseAvg s lbl sd ed a ≤ pulseAvg s lbl sd ed b

instance (s : Store) (lbl : String) (sd ed : Option String) :
    DecidableRel (avgAsc s lbl sd ed) := fun _a _b =>
  inferInstanceAs (Decidable (_ ≤ _))

instance (s : Store) (lbl : String) (sd ed : Option String) :
    IsTotal String (avgAsc s lbl sd ed) := ⟨fun _a _b => le_total _ _⟩

instance (s : Store) (lbl : String) (sd ed : Option String) :
    IsTrans String (avgAsc s lbl sd ed) := ⟨fun _ _ _ h1 h2 => le_trans h1 h2⟩

/-- The grouped symbols that survive `HAVING post_count >= 3`. -/
def pulseQualified (s : Store) (lbl : String) (sd ed : Option String) : List String :=
  (((pulseJoinRows s lbl sd ed).map (fun r => r.1)).dedup).filter
    (fun sym => 3 ≤ pulseCount s lbl sd ed sym)

/-- Embeds the `most_positive_stocks` component of
`AnalyticsRepository.get_market_pulse`: groups restricted to posts labeled
positive, `HAVING post_count >= 3`, `ORDER BY avg_sentiment DESC LIMIT
10`, with the average rounded to 2 places in the output dictionaries. -/
def most_positive_stocks (s : Store) (sd ed : Option String) : List PulseEntry :=
  (((pulseQualified s "positive" sd ed).insertionSort
        (avgDesc s "positive" sd ed)).take 10).map
    (fun sym =>
      ⟨sym, pyRound2 (pulseAvg s "positive" sd ed sym), pulseCount s "positive" sd ed sym⟩)

/-- Embeds the `most_negative_stocks` component of `get_market_pulse`
(label negative, `ORDER BY avg_sentiment ASC`). -/
def most_negative_stocks (s : Store) (sd ed : Option String) : List PulseEntry :=
  (((pulseQualified s "negative" sd ed).insertionSort
        (avgAsc s "negative" sd ed)).take 10).map
    (fun sym =>
      ⟨sym, pyRound2 (pulseAvg s "negative" sd ed sym), pulseCount s "negative" sd ed sym⟩)

/-- A proleptic Gregorian calendar date as parsed from the leading
`YYYY-MM-DD` of a stored `created_at` string. -/
structure Date where
  year : ℤ
  month : ℤ
  day : ℤ
deriving DecidableEq

/-- Days since 1970-01-01 of a civil date (Hinnant's `days_from_civil`
algorithm, the standard conversion SQLite's date functions agree with on
valid dates; `tdiv` mirrors C's truncating division). -/
def daysFromCivil (d : Date) : ℤ :=
  let y := if d.month ≤ 2 then d.year - 1 else d.year
  let era := (if 0 ≤ y then y else y - 399).tdiv 400
  let yoe := y - era * 400
  let mp := if 2 < d.month then d.month - 3 else d.month + 9
  let doy := (153 * mp + 2).tdiv 5 + d.day - 1
  let doe := yoe * 365 + yoe.tdiv 4 - yoe.tdiv 100 + doy
  era * 146097 + doe - 719468

/-- Weekday with Monday = 0 of an epoch day number (1970-01-01, day 0,
was a Thursday). -/
def wdMon (n : ℤ) : ℤ := (n + 3) % 7

/-- The week-of-year number `%W` of SQLite's `strftime` (C strftime
semantics): weeks begin on Monday, and the days before the first Monday
of the year form week 00.  Computed from the 0-based day of year and the
weekday, as `(yday + 7 - wday_mon) / 7`. -/
def weekW (d : Date) : ℤ :=
  (daysFromCivil d - daysFromCivil ⟨d.year, 1, 1⟩ + 7 - wdMon (daysFromCivil d)) / 7

/-- The week-granularity bucket key of `get_sentiment_trends`, the
structural form of `strftime('%Y-W%W', created_at)`: the calendar year
paired with the `%W` week number. -/
def wkKey (d : Date) : ℤ × ℤ := (d.year, weekW d)

/-- Index of the Monday-aligned 7-day block containing an epoch day
number (day -3, 1969-12-29, was a Monday). -/
def mondayBlock (n : ℤ) : ℤ := (n + 3) / 7

/-- Modelled from the spec: ISO-8601 weeks run Monday through Sunday, so
two dates lie in the same ISO week exactly when they lie in the same
Monday-aligned 7-day block.  (The ISO year-week labelling is irrelevant
for sameness of weeks.) -/
def sameISOWeek (d1 d2 : Date) : Prop :=
  mondayBlock (daysFromCivil d1) = mondayBlock (daysFromCivil d2)

instance (d1 d2 : Date) : Decidable (sameISOWeek d1 d2) :=
  inferInstanceAs (Decidable (_ = _))

/-- Numeric value of an ASCII digit. -/
def digitVal (c : Char) : ℤ := (c.toNat : ℤ) - 48

/-- Extracts the leading `YYYY-MM-DD` of an ISO-8601 timestamp string, as
SQLite's date functions do before formatting; a string not of that shape
makes them return NULL. -/
def parseYMD (s : String) : Option Date :=
  match s.data with
  | c0 :: c1 :: c2 :: c3 :: c4 :: c5 :: c6 :: c7 :: c8 :: c9 :: _ =>
    if c0.isDigit ∧ c1.isDigit ∧ c2.isDigit ∧ c3.isDigit ∧ c4 = '-' ∧
        c5.isDigit ∧ c6.isDigit ∧ c7 = '-' ∧ c8.isDigit ∧ c9.isDigit then
      some ⟨digitVal c0 * 1000 + digitVal c1 * 100 + digitVal c2 * 10 + digitVal c3,
            digitVal c5 * 10 + digitVal c6,
            digitVal c8 * 10 + digitVal c9⟩
    else none
  | _ => none

/-- The `strftime('%Y-W%W', created_at)` bucket key of a stored
timestamp string (NULL when the string is not a well-formed date). -/
def bucketKeyWeek (created_at : String) : Option (ℤ × ℤ) :=
  (parseYMD created_at).map wkKey

/-- The `DATE(created_at)` bucket key used at day granularity: the
calendar date itself. -/
def bucketKeyDay (created_at : String) : Option Date :=
  parseYMD created_at

/-- The date conditions of `get_sentiment_trends`: `created_at >=
start_date` when `start_date` is truthy, otherwise (when `end_date` is
also falsy) `created_at >= cutoff` where `cutoff` stands for the
precomputed `(utcnow() - timedelta(days)).isoformat()`; plus `created_at
<= end_date` when truthy. -/
def trendCond (sd ed : Option String) (cutoff : String) (p : PostRow) : Prop :=
  (if truthy sd then strLe (sd.getD "") p.created_at
   else if truthy ed then True else strLe cutoff p.created_at) ∧
  (truthy ed → strLe p.created_at (ed.getD ""))

instance (sd ed : Option String) (cutoff : String) (p : PostRow) :
    Decidable (trendCond sd ed cutoff p) :=
  inferInstanceAs (Decidable (And _ _))

/-- One bucket of the trends result: the bucket key and the positive,
negative and neutral counts. -/
structure TrendEntry (K : Type) where
  date : Option K
  positive : ℕ
  negative : ℕ
  neutral : ℕ
deriving DecidableEq

/-- Grouping of `GROUP BY date, sentiment_label` rows into one entry per
distinct bucket key, as the Python loop over the grouped rows builds it
(counts default to 0 for labels absent in a bucket; the result order,
`ORDER BY date DESC`, is not modelled — no claim depends on it). -/
def trendBuckets {K : Type} [DecidableEq K] (keyf : String → Option K)
    (rows : List PostRow) : List (TrendEntry K) :=
  ((rows.map (fun p => keyf p.created_at)).dedup).map (fun k =>
    { date := k
      positive := (rows.filter (fun p =>
        keyf p.created_at = k ∧ p.sentiment_label = "positive")).length
      negative := (rows.filter (fun p =>
        keyf p.created_at = k ∧ p.sentiment_label = "negative")).length
      neutral := (rows.filter (fun p =>
        keyf p.created_at = k ∧ p.sentiment_label = "neutral")).length })

/-- Embeds `AnalyticsRepository.get_sentiment_trends` at week
granularity: the usual dimension joins, the trend date conditions, and
`GROUP BY strftime('%Y-W%W', created_at), sentiment_label`. -/
def get_sentiment_trends_week (s : Store) (tk ind sec sd ed : Option String)
    (cutoff : String) : List (TrendEntry (ℤ × ℤ)) :=
  trendBuckets bucketKeyWeek (dimJoinRows s tk ind sec (trendCond sd ed cutoff))

/-- Embeds `AnalyticsRepository.get_sentiment_trends` at day granularity
(`GROUP BY DATE(created_at), sentiment_label`). -/
def get_sentiment_trends_day (s : Store) (tk ind sec sd ed : Option String)
    (cutoff : String) : List (TrendEntry Date) :=
  trendBuckets bucketKeyDay (dimJoinRows s tk ind sec (trendCond sd ed cutoff))

/-- Concrete catalog with tickers A, B, C (ids 1, 2, 3) and two posts for
exercising the linking claims. -/
def storeC1 : Store :=
  ⟨[], [⟨1, "A", none, none, none⟩, ⟨2, "B", none, none, none⟩,
      ⟨3, "C", none, none, none⟩], [], [],
    [("p2", 1)], [], [], 4, 1, 1⟩

/-- The post row of the C2 witness store. -/
def rowC2 : PostRow :=
  ⟨"pA", "", "", "", "", "body", "a", "2024-01-01T00:00:00", "UTC", "positive",
    1, ScoresCell.obj [("positive", 1)], "t"⟩

/-- Concrete store for the C2 witness: one post linked to ticker A and to
sector Y (and not to sector Z). -/
def storeC2 : Store :=
  ⟨[rowC2], [⟨1, "A", none, none, none⟩], [⟨1, "Y"⟩, ⟨2, "Z"⟩], [],
    [("pA", 1)], [], [("pA", 1)], 2, 3, 1⟩

/-- Concrete store for the C3 witness: a single post that matches the
ticker filter through two (duplicate) link rows, so the raw join yields
two rows but both the count and the listing collapse them to one. -/
def storeC3 : Store :=
  ⟨[rowC2], [⟨1, "A", none, none, none⟩], [], [],
    [("pA", 1), ("pA", 1)], [], [], 2, 1, 1⟩

/-- Concrete store for the C4 witness: one positive post matching the
empty filter. -/
def storeC4 : Store := ⟨[rowC2], [], [], [], [], [], [], 1, 1, 1⟩

/-- A positive post row for the C5 witness store. -/
def rowQ (pid ca : String) : PostRow :=
  ⟨pid, "", "", "", "", "body", "a", ca, "UTC", "positive",
    1, ScoresCell.obj [("positive", 1)], "t"⟩

/-- Concrete store for the C5 witness: ticker AAPL with three distinct
positive linked posts. -/
def storeC5 : Store :=
  ⟨[rowQ "q1" "2024-01-01T00:00:00", rowQ "q2" "2024-01-02T00:00:00",
      rowQ "q3" "2024-01-03T00:00:00"],
    [⟨1, "AAPL", none, none, none⟩], [], [],
    [("q1", 1), ("q2", 1), ("q3", 1)], [], [], 2, 1, 1⟩

/-- Concrete store for the C6 witness: an empty catalog. -/
def storeC6 : Store := ⟨[], [], [], [], [], [], [], 1, 1, 1⟩

/-- A `save_post` input lacking one of the required dictionary keys (id,
text, created_at, or the sentiment object or its label, score or scores
entry). -/
def missingRequired (pd : PostInput) : Prop :=
  pd.id = none ∨ pd.text = none ∨ pd.created_at = none ∨ pd.sentiment = none ∨
    ∃ sen, pd.sentiment = some sen ∧
      (sen.label = none ∨ sen.score = none ∨ sen.scores = none)

/-- A complete `save_post` input for the C7 witness. -/
def inputC7 : PostInput :=
  ⟨some "p9", none, none, none, none, none, some "body", none, none,
    some "2024-01-01T00:00:00", none,
    some ⟨some "positive", some 1, some [("positive", 1)]⟩⟩

/-- An input missing its text for the C7 witness. -/
def inputC7bad : PostInput :=
  ⟨some "p9", none, none, none, none, none, none, none, none,
    some "2024-01-01T00:00:00", none,
    some ⟨some "positive", some 1, some [("positive", 1)]⟩⟩

/-- Concrete store for the C9 counterexample: two posts whose creation
dates fall in the same ISO week but on either side of a year boundary. -/
def storeC9 : Store :=
  ⟨[rowQ "w1" "2024-12-30T12:00:00", rowQ "w2" "2025-01-01T12:00:00"],
    [], [], [], [], [], [], 1, 1, 1⟩

/-- A null-scores row for the C10 witness. -/
def rowC10 : PostRow :=
  ⟨"n1", "", "", "", "", "body", "a", "2024-01-01T00:00:00", "UTC", "neutral",
    1, ScoresCell.null, "t"⟩

section Helpers

variable {α β : Type} [DecidableEq β]

/-- Counting occurrences of members of `k :: ks` splits off the
occurrences of `k` when `k ∉ ks`. -/
theorem countP_mem_cons (L : List β) (k : β) (ks : List β) (hk : k ∉ ks) :
    L.countP (fun x => decide (x ∈ k :: ks)) =
      L.countP (fun x => decide (x = k)) + L.countP (fun x => decide (x ∈ ks)) := by
  induction L with
  | nil => simp
  | cons a t ih =>
    simp only [List.countP_cons, ih]
    by_cases h1 : a = k
    · subst h1
      simp [hk]
      omega
    · by_cases h2 : a ∈ ks
      · simp [h1, h2]
        omega
      · simp [h1, h2]

/-- Summing, over a duplicate-free key list, the number of occurrences of
each key in `L` counts exactly the elements of `L` that are keys. -/
theorem sum_countP_keys (keys : List β) (L : List β) (hnd : keys.Nodup) :
    (keys.map (fun b => L.countP (fun x => decide (x = b)))).sum =
      L.countP (fun x => decide (x ∈ keys)) := by
  induction keys with
  | nil => simp
  | cons k ks ih =>
    have hk : k ∉ ks := (List.nodup_cons.mp hnd).1
    rw [List.map_cons, List.sum_cons, ih (List.nodup_cons.mp hnd).2,
      countP_mem_cons L k ks hk]

/-- Summing the occurrence counts of the distinct values of `L` recovers
the length of `L` (the group-by partition property). -/
theorem sum_countP_dedup (L : List β) :
    (L.dedup.map (fun b => L.countP (fun x => decide (x = b)))).sum = L.length := by
  rw [sum_countP_keys L.dedup L L.nodup_dedup]
  rw [List.countP_eq_length.mpr]
  intro a ha
  simp [List.mem_dedup, ha]

/-- Deduplicating the image of a list under a map injective on the list
preserves the number of distinct elements. -/
theorem dedup_map_length_of_inj [DecidableEq α] (f : α → β) :
    ∀ (l : List α), (∀ a ∈ l, ∀ b ∈ l, f a = f b → a = b) →
      (l.map f).dedup.length = l.dedup.length := by
  intro l
  induction l with
  | nil => intro _; rfl
  | cons a t ih =>
    intro hinj
    have hrest : ∀ x ∈ t, ∀ y ∈ t, f x = f y → x = y := fun x hx y hy =>
      hinj x (List.mem_cons_of_mem a hx) y (List.mem_cons_of_mem a hy)
    by_cases hmem : a ∈ t
    · have hfmem : f a ∈ t.map f := List.mem_map_of_mem f hmem
      rw [List.map_cons, List.dedup_cons_of_mem hfmem, List.dedup_cons_of_mem hmem,
        ih hrest]
    · have hfmem : f a ∉ t.map f := by
        intro hfa
        obtain ⟨b, hb, hba⟩ := List.mem_map.mp hfa
        exact hmem (hinj a (List.mem_cons_self a t) b (List.mem_cons_of_mem a hb)
          hba.symm ▸ hb)
      rw [List.map_cons, List.dedup_cons_of_not_mem hfmem,
        List.dedup_cons_of_not_mem hmem, List.length_cons, List.length_cons,
        ih hrest]

/-- A list whose image under `f` is duplicate-free has at most one element
with any given `f`-value. -/
theorem filter_eq_length_le_one (f : α → β) (b : β) :
    ∀ (l : List α), (l.map f).Nodup → (l.filter (fun a => f a = b)).length ≤ 1 := by
  intro l
  induction l with
  | nil => intro _; simp
  | cons a t ih =>
    intro hnd
    rw [List.map_cons, List.nodup_cons] at hnd
    by_cases hab : f a = b
    · have ht : t.filter (fun x => f x = b) = [] := by
        rw [List.filter_eq_nil_iff]
        intro x hx
        simp only [decide_eq_true_eq]
        intro hxb
        exact hnd.1 (hab ▸ hxb ▸ List.mem_map_of_mem f hx)
      simp [List.filter_cons, hab, ht]
    · simpa [List.filter_cons, hab] using ih hnd.2

/-- Membership in a conditional list that is empty in the negative
branch. -/
theorem mem_ite_nil {γ : Type} (c : Prop) [Decidable c] (l : List γ) (x : γ) :
    (x ∈ if c then l else []) ↔ c ∧ x ∈ l := by
  by_cases h : c <;> simp [h]

end Helpers

/-- A post has positive ticker-join multiplicity exactly when a link row
joins it to a ticker row carrying the requested symbol. -/
theorem tickerMult_pos_iff (s : Store) (pid sym : String) :
    0 < tickerMult s pid sym ↔
      ∃ t ∈ s.tickers, t.symbol = sym ∧ (pid, t.id) ∈ s.post_tickers := by
  unfold tickerMult
  rw [List.length_pos_iff_exists_mem]
  constructor
  · rintro ⟨x, hx⟩
    obtain ⟨l, hl, hxl⟩ := List.mem_flatMap.mp hx
    obtain ⟨hpid, hxf⟩ := (mem_ite_nil _ _ _).mp hxl
    obtain ⟨hxt, hcond⟩ := List.mem_filter.mp hxf
    simp only [decide_eq_true_eq] at hcond
    refine ⟨x, hxt, hcond.2, ?_⟩
    have : l = (pid, x.id) := by
      cases l
      simp_all
    exact this ▸ hl
  · rintro ⟨t, ht, hsym, hlink⟩
    refine ⟨t, List.mem_flatMap.mpr ⟨(pid, t.id), hlink, ?_⟩⟩
    rw [mem_ite_nil]
    refine ⟨rfl, List.mem_filter.mpr ⟨ht, ?_⟩⟩
    simp [hsym]

/-- Industry analogue of `tickerMult_pos_iff`. -/
theorem industryMult_pos_iff (s : Store) (pid nm : String) :
    0 < industryMult s pid nm ↔
      ∃ i ∈ s.industries, i.name = nm ∧ (pid, i.id) ∈ s.post_industries := by
  unfold industryMult
  rw [List.length_pos_iff_exists_mem]
  constructor
  · rintro ⟨x, hx⟩
    obtain ⟨l, hl, hxl⟩ := List.mem_flatMap.mp hx
    obtain ⟨hpid, hxf⟩ := (mem_ite_nil _ _ _).mp hxl
    obtain ⟨hxt, hcond⟩ := List.mem_filter.mp hxf
    simp only [decide_eq_true_eq] at hcond
    refine ⟨x, hxt, hcond.2, ?_⟩
    have : l = (pid, x.id) := by
      cases l
      simp_all
    exact this ▸ hl
  · rintro ⟨i, hi, hnm, hlink⟩
    refine ⟨i, List.mem_flatMap.mpr ⟨(pid, i.id), hlink, ?_⟩⟩
    rw [mem_ite_nil]
    refine ⟨rfl, List.mem_filter.mpr ⟨hi, ?_⟩⟩
    simp [hnm]

/-- Sector analogue of `tickerMult_pos_iff`. -/
theorem sectorMult_pos_iff (s : Store) (pid nm : String) :
    0 < sectorMult s pid nm ↔
      ∃ c ∈ s.sectors, c.name = nm ∧ (pid, c.id) ∈ s.post_sectors := by
  unfold sectorMult
  rw [List.length_pos_iff_exists_mem]
  constructor
  · rintro ⟨x, hx⟩
    obtain ⟨l, hl, hxl⟩ := List.mem_flatMap.mp hx
    obtain ⟨hpid, hxf⟩ := (mem_ite_nil _ _ _).mp hxl
    obtain ⟨hxt, hcond⟩ := List.mem_filter.mp hxf
    simp only [decide_eq_true_eq] at hcond
    refine ⟨x, hxt, hcond.2, ?_⟩
    have : l = (pid, x.id) := by
      cases l
      simp_all
    exact this ▸ hl
  · rintro ⟨c, hc, hnm, hlink⟩
    refine ⟨c, List.mem_flatMap.mpr ⟨(pid, c.id), hlink, ?_⟩⟩
    rw [mem_ite_nil]
    refine ⟨rfl, List.mem_filter.mpr ⟨hc, ?_⟩⟩
    simp [hnm]

/-- Membership characterisation of the dynamically joined query rows: a
row appears (at least once) iff it is a stored post, passes the row-level
conditions, and every truthy dimension filter has at least one matching
pair of link and dimension rows. -/
theorem mem_dimJoinRows (s : Store) (tk ind sec : Option String)
    (cond : PostRow → Prop) [DecidablePred cond] (r : PostRow) :
    r ∈ dimJoinRows s tk ind sec cond ↔
      r ∈ s.posts ∧ cond r ∧
        (truthy tk → 0 < tickerMult s r.id (tk.getD "")) ∧
        (truthy ind → 0 < industryMult s r.id (ind.getD "")) ∧
        (truthy sec → 0 < sectorMult s r.id (sec.getD "")) := by
  unfold dimJoinRows
  rw [List.mem_flatMap]
  constructor
  · rintro ⟨p, hp, hr⟩
    obtain ⟨hcond, hrep⟩ := (mem_ite_nil _ _ _).mp hr
    obtain ⟨hn, hrp⟩ := List.mem_replicate.mp hrep
    subst hrp
    rw [Ne, Nat.mul_eq_zero, not_or, Nat.mul_eq_zero, not_or] at hn
    refine ⟨hp, hcond, ?_, ?_, ?_⟩
    · intro htr
      have hne := hn.1
      rw [if_pos htr] at hne
      exact Nat.pos_of_ne_zero hne
    · intro htr
      have hne := hn.2.1
      rw [if_pos htr] at hne
      exact Nat.pos_of_ne_zero hne
    · intro htr
      have hne := hn.2.2
      rw [if_pos htr] at hne
      exact Nat.pos_of_ne_zero hne
  · rintro ⟨hp, hcond, h1, h2, h3⟩
    refine ⟨r, hp, (mem_ite_nil _ _ _).mpr ⟨hcond, List.mem_replicate.mpr ⟨?_, rfl⟩⟩⟩
    have e1 : (if truthy tk then tickerMult s r.id (tk.getD "") else 1) ≠ 0 := by
      by_cases htr : truthy tk <;> simp [htr]
      exact Nat.pos_iff_ne_zero.mp (h1 htr)
    have e2 : (if truthy ind then industryMult s r.id (ind.getD "") else 1) ≠ 0 := by
      by_cases htr : truthy ind <;> simp [htr]
      exact Nat.pos_iff_ne_zero.mp (h2 htr)
    have e3 : (if truthy sec then sectorMult s r.id (sec.getD "") else 1) ≠ 0 := by
      by_cases htr : truthy sec <;> simp [htr]
      exact Nat.pos_iff_ne_zero.mp (h3 htr)
    exact Nat.mul_ne_zero e1 (Nat.mul_ne_zero e2 e3)

/-- Every join row is one of the stored posts. -/
theorem dimJoinRows_subset (s : Store) (tk ind sec : Option String)
    (cond : PostRow → Prop) [DecidablePred cond] (r : PostRow)
    (hr : r ∈ dimJoinRows s tk ind sec cond) : r ∈ s.posts :=
  ((mem_dimJoinRows s tk ind sec cond r).mp hr).1

/-- Membership in the sorted deduplicated result rows is membership in
the join rows. -/
theorem mem_sortPosts_dedup (J : List PostRow) (r : PostRow) :
    r ∈ sortPosts J.dedup ↔ r ∈ J := by
  unfold sortPosts
  rw [(List.perm_insertionSort createdDesc J.dedup).mem_iff, List.mem_dedup]

/-- Membership characterisation of the linking loop: a pair is present
afterwards iff it was in the base table or it is a link of the post being
linked to an id some listed name resolves to. -/
theorem linkFold_mem (p : String) (f : String → Option ℕ) :
    ∀ (names : List String) (acc : List (String × ℕ)) (q : String) (i : ℕ),
      ((q, i) ∈ linkFold p f acc names ↔
        (q, i) ∈ acc ∨ (q = p ∧ ∃ nm ∈ names, f nm = some i)) := by
  intro names
  induction names with
  | nil => simp [linkFold]
  | cons nm rest ih =>
    intro acc q i
    show (q, i) ∈ linkFold p f _ rest ↔ _
    cases hf : f nm with
    | none =>
      simp only [linkFold, List.foldl_cons, hf]
      rw [show List.foldl _ acc rest = linkFold p f acc rest from rfl, ih]
      constructor
      · rintro (h | ⟨hq, x, hx, hfx⟩)
        · exact Or.inl h
        · exact Or.inr ⟨hq, x, List.mem_cons_of_mem nm hx, hfx⟩
      · rintro (h | ⟨hq, x, hx, hfx⟩)
        · exact Or.inl h
        · rcases List.mem_cons.mp hx with hxnm | hxr
          · rw [hxnm, hf] at hfx
            cases hfx
          · exact Or.inr ⟨hq, x, hxr, hfx⟩
    | some j =>
      simp only [linkFold, List.foldl_cons, hf]
      rw [show List.foldl _ (insertIgnorePair acc (p, j)) rest =
        linkFold p f (insertIgnorePair acc (p, j)) rest from rfl, ih]
      have hmem : (q, i) ∈ insertIgnorePair acc (p, j) ↔
          (q, i) ∈ acc ∨ (q = p ∧ i = j) := by
        unfold insertIgnorePair
        by_cases hin : (p, j) ∈ acc
        · rw [if_pos hin]
          constructor
          · exact Or.inl
          · rintro (h | ⟨hq, hij⟩)
            · exact h
            · rw [hq, hij]
              exact hin
        · rw [if_neg hin, List.mem_append]
          simp [Prod.ext_iff]
      rw [hmem]
      constructor
      · rintro ((h | ⟨hq, hij⟩) | ⟨hq, x, hx, hfx⟩)
        · exact Or.inl h
        · exact Or.inr ⟨hq, nm, List.mem_cons_self nm rest, hij ▸ hf⟩
        · exact Or.inr ⟨hq, x, List.mem_cons_of_mem nm hx, hfx⟩
      · rintro (h | ⟨hq, x, hx, hfx⟩)
        · exact Or.inl (Or.inl h)
        · rcases List.mem_cons.mp hx with hxnm | hxr
          · rw [hxnm, hf] at hfx
            exact Or.inl (Or.inr ⟨hq, (Option.some_inj.mp hfx).symm⟩)
          · exact Or.inr ⟨hq, x, hxr, hfx⟩

/-- Names that do not resolve leave the linking loop's state untouched:
the loop over a name list equals the loop over its resolvable names. -/
theorem linkFold_skip (p : String) (f : String → Option ℕ) :
    ∀ (names : List String) (acc : List (String × ℕ)),
      linkFold p f acc (names.filter (fun nm => (f nm).isSome)) =
        linkFold p f acc names := by
  intro names
  induction names with
  | nil => intro acc; rfl
  | cons nm rest ih =>
    intro acc
    cases hf : f nm with
    | none => simp [linkFold, List.filter_cons, hf, ih, linkFold]
              rw [show List.foldl _ acc (rest.filter _) = linkFold p f acc
                (rest.filter (fun nm => (f nm).isSome)) from rfl, ih]
              rfl
    | some j => simp only [linkFold, List.filter_cons, hf, Option.isSome_some,
                  List.foldl_cons, if_pos]
                rw [show List.foldl _ _ (rest.filter _) = linkFold p f
                  (insertIgnorePair acc (p, j)) (rest.filter (fun nm => (f nm).isSome))
                  from rfl, ih]
                rfl

/-- A pair whose post id passes the delete step is never in the base of a
relink. -/
theorem not_mem_link_base (links : List (String × ℕ)) (p : String) (tid : ℕ) :
    (p, tid) ∉ links.filter (fun l => l.1 ≠ p) := by
  intro h
  have := (List.mem_filter.mp h).2
  simp at this

/-- Links of a different post survive the delete step unchanged. -/
theorem mem_link_base_of_ne (links : List (String × ℕ)) (p q : String) (tid : ℕ)
    (hq : q ≠ p) : ((q, tid) ∈ links.filter (fun l => l.1 ≠ p)) ↔ (q, tid) ∈ links := by
  constructor
  · exact fun h => (List.mem_filter.mp h).1
  · intro h
    exact List.mem_filter.mpr ⟨h, by simpa using hq⟩

/-- Claim C1: linking is a full replace per post and dimension — after
`link_post_to_tickers p S1` then `link_post_to_tickers p S2`, the ticker
link rows of `p` are exactly the links to ids that symbols of `S2`
resolve to (so nothing of `S1 \ S2` survives), and the link rows of every
other post are untouched. -/
theorem C1_link_full_replace (s : Store) (p : String) (S1 S2 : List String) :
    (∀ tid : ℕ,
      ((p, tid) ∈ (link_post_to_tickers (link_post_to_tickers s p S1) p S2).post_tickers ↔
        ∃ sym ∈ S2, resolveTicker s sym = some tid)) ∧
    (∀ (q : String) (tid : ℕ), q ≠ p →
      (((q, tid) ∈ (link_post_to_tickers (link_post_to_tickers s p S1) p S2).post_tickers) ↔
        (q, tid) ∈ s.post_tickers)) := by
  have hres : resolveTicker (link_post_to_tickers s p S1) = resolveTicker s := rfl
  constructor
  · intro tid
    show (p, tid) ∈ linkFold p (resolveTicker (link_post_to_tickers s p S1)) _ S2 ↔ _
    rw [linkFold_mem, hres]
    constructor
    · rintro (h | ⟨_, hex⟩)
      · exact absurd h (not_mem_link_base _ p tid)
      · exact hex
    · intro hex
      exact Or.inr ⟨rfl, hex⟩
  · intro q tid hq
    show (q, tid) ∈ linkFold p (resolveTicker (link_post_to_tickers s p S1)) _ S2 ↔ _
    rw [linkFold_mem, hres]
    constructor
    · rintro (h | ⟨hqp, _⟩)
      · have h2 := (mem_link_base_of_ne _ p q tid hq).mp h
        show _ ∈ s.post_tickers
        have h3 : (q, tid) ∈ linkFold p (resolveTicker s)
            (s.post_tickers.filter (fun l => l.1 ≠ p)) S1 := h2
        rcases (linkFold_mem p (resolveTicker s) S1 _ q tid).mp h3 with h4 | ⟨hqp, _⟩
        · exact (mem_link_base_of_ne _ p q tid hq).mp h4
        · exact absurd hqp hq
      · exact absurd hqp hq
    · intro h
      refine Or.inl ((mem_link_base_of_ne _ p q tid hq).mpr ?_)
      show (q, tid) ∈ linkFold p (resolveTicker s)
        (s.post_tickers.filter (fun l => l.1 ≠ p)) S1
      rw [linkFold_mem]
      exact Or.inl ((mem_link_base_of_ne _ p q tid hq).mpr h)

/-- Witness for C1 at a concrete input: after linking p1 to [A, B] and
then to [C], p1 is linked exactly to C's id and the untouched post p2
keeps its link. -/
theorem C1_link_full_replace_witness :
    ("p2" ≠ "p1" ∧
      ((("p2", 1) ∈
          (link_post_to_tickers (link_post_to_tickers storeC1 "p1" ["A", "B"])
            "p1" ["C"]).post_tickers) ↔ ("p2", 1) ∈ storeC1.post_tickers)) ∧
    ((("p1", 3) ∈
        (link_post_to_tickers (link_post_to_tickers storeC1 "p1" ["A", "B"])
          "p1" ["C"]).post_tickers) ↔ ∃ sym ∈ ["C"], resolveTicker storeC1 sym = some 3) ∧
    (link_post_to_tickers (link_post_to_tickers storeC1 "p1" ["A", "B"])
        "p1" ["C"]).post_tickers = [("p2", 1), ("p1", 3)] :=
  ⟨⟨by decide, (C1_link_full_replace storeC1 "p1" ["A", "B"] ["C"]).2 "p2" 1 (by decide)⟩,
    (C1_link_full_replace storeC1 "p1" ["A", "B"] ["C"]).1 3, by decide⟩

/-- Claim C8: linking to unresolved symbols or names is not an error —
the call completes (it is a total function), the loop state is the same
as if the unresolvable names had not been passed at all, and after a call
the post carries one link per name that resolves to a catalog row, for
both linking methods and all three dimensions. -/
theorem C8_link_skips_unresolved (s : Store) (p : String)
    (syms inds secs : List String) :
    (link_post_to_tickers s p syms =
      link_post_to_tickers s p (syms.filter (fun sym => (resolveTicker s sym).isSome))) ∧
    (∀ tid : ℕ, ((p, tid) ∈ (link_post_to_tickers s p syms).post_tickers ↔
      ∃ sym ∈ syms, resolveTicker s sym = some tid)) ∧
    (∀ iid : ℕ,
      ((p, iid) ∈ (link_post_to_industries_and_sectors s p inds secs).post_industries ↔
        ∃ nm ∈ inds, resolveIndustry s nm = some iid)) ∧
    (∀ cid : ℕ,
      ((p, cid) ∈ (link_post_to_industries_and_sectors s p inds secs).post_sectors ↔
        ∃ nm ∈ secs, resolveSector s nm = some cid)) := by
  refine ⟨?_, ?_, ?_, ?_⟩
  · show _ = ({ s with post_tickers := _ } : Store)
    rw [link_post_to_tickers, linkFold_skip]
  · intro tid
    show (p, tid) ∈ linkFold p (resolveTicker s) _ syms ↔ _
    rw [linkFold_mem]
    constructor
    · rintro (h | ⟨_, hex⟩)
      · exact absurd h (not_mem_link_base _ p tid)
      · exact hex
    · intro hex
      exact Or.inr ⟨rfl, hex⟩
  · intro iid
    show (p, iid) ∈ linkFold p (resolveIndustry s) _ inds ↔ _
    rw [linkFold_mem]
    constructor
    · rintro (h | ⟨_, hex⟩)
      · exact absurd h (not_mem_link_base _ p iid)
      · exact hex
    · intro hex
      exact Or.inr ⟨rfl, hex⟩
  · intro cid
    show (p, cid) ∈ linkFold p (resolveSector s) _ secs ↔ _
    rw [linkFold_mem]
    constructor
    · rintro (h | ⟨_, hex⟩)
      · exact absurd h (not_mem_link_base _ p cid)
      · exact hex
    · intro hex
      exact Or.inr ⟨rfl, hex⟩

/-- Witness for C8 at a concrete input: linking to a known symbol and an
unknown one behaves as if only the known one were passed, and produces
its link. -/
theorem C8_link_skips_unresolved_witness :
    (link_post_to_tickers storeC1 "p1" ["A", "X"] =
      link_post_to_tickers storeC1 "p1"
        ((["A", "X"]).filter (fun sym => (resolveTicker storeC1 sym).isSome))) ∧
    (("p1", 1) ∈ (link_post_to_tickers storeC1 "p1" ["A", "X"]).post_tickers ↔
      ∃ sym ∈ ["A", "X"], resolveTicker storeC1 sym = some 1) :=
  ⟨(C8_link_skips_unresolved storeC1 "p1" ["A", "X"] [] []).1,
    (C8_link_skips_unresolved storeC1 "p1" ["A", "X"] [] []).2.1 1⟩

/-- Claim C2: multi-dimension filters intersect — with both a ticker and
a sector criterion, `get_posts_filtered` (with no pagination cut) returns
a stored post exactly when a link row joins it to the named ticker AND a
link row joins it to the named sector. -/
theorem C2_filters_intersect (s : Store) (tk sec : String)
    (htk : tk ≠ "") (hsec : sec ≠ "") (r : PostRow) :
    (r ∈ get_posts_filtered_rows s (some tk) none (some sec) none none none none 0 ↔
      (r ∈ s.posts ∧
        (∃ t ∈ s.tickers, t.symbol = tk ∧ (r.id, t.id) ∈ s.post_tickers) ∧
        (∃ c ∈ s.sectors, c.name = sec ∧ (r.id, c.id) ∈ s.post_sectors))) := by
  have htk2 : truthy (some tk) = true := by simp [truthy, htk]
  have hsec2 : truthy (some sec) = true := by simp [truthy, hsec]
  have hstep : (r ∈ get_posts_filtered_rows s (some tk) none (some sec) none none none
      none 0) ↔ r ∈ filterJoinRows s (some tk) none (some sec) none none none :=
    mem_sortPosts_dedup _ r
  rw [hstep]
  unfold filterJoinRows
  rw [mem_dimJoinRows]
  constructor
  · rintro ⟨hp, _, h1, _, h3⟩
    exact ⟨hp, (tickerMult_pos_iff s r.id tk).mp (h1 htk2),
      (sectorMult_pos_iff s r.id sec).mp (h3 hsec2)⟩
  · rintro ⟨hp, hticker, hsector⟩
    refine ⟨hp, by simp [rowCond, dateCond, truthy], ?_, ?_, ?_⟩
    · intro _
      exact (tickerMult_pos_iff s r.id tk).mpr hticker
    · intro hfalse
      simp [truthy] at hfalse
    · intro _
      exact (sectorMult_pos_iff s r.id sec).mpr hsector

/-- Witness for C2 at a concrete input: the post linked to ticker A and
sector Y matches filter (A, Y) but not filter (A, Z). -/
theorem C2_filters_intersect_witness :
    (rowC2 ∈ get_posts_filtered_rows storeC2 (some "A") none (some "Y") none none none
      none 0) ∧
    ¬(rowC2 ∈ get_posts_filtered_rows storeC2 (some "A") none (some "Z") none none none
      none 0) :=
  ⟨(C2_filters_intersect storeC2 "A" "Y" (by decide) (by decide) rowC2).mpr (by decide),
    fun h => absurd
      ((C2_filters_intersect storeC2 "A" "Z" (by decide) (by decide) rowC2).mp h)
      (by decide)⟩

/-- Claim C3: for every store whose posts have pairwise distinct ids (the
primary-key constraint, modelled from the spec) and every filter
combination, `count_posts_filtered` equals the length of the list
returned by `get_posts_filtered` with unbounded limit and offset 0; both
de-duplicate, so a post matched through several link rows is counted and
listed once. -/
theorem C3_count_matches_list (s : Store) (tk ind sec snt sd ed : Option String)
    (hids : (s.posts.map PostRow.id).Nodup) :
    count_posts_filtered s tk ind sec snt sd ed =
      (get_posts_filtered s tk ind sec snt sd ed none 0).length := by
  unfold get_posts_filtered count_posts_filtered
  rw [List.length_map]
  show _ = (sortPosts (filterJoinRows s tk ind sec snt sd ed).dedup).length
  rw [sortPosts, List.length_insertionSort]
  exact dedup_map_length_of_inj PostRow.id (filterJoinRows s tk ind sec snt sd ed)
    (fun a ha b hb hab =>
      List.inj_on_of_nodup_map hids
        (dimJoinRows_subset s tk ind sec _ a ha)
        (dimJoinRows_subset s tk ind sec _ b hb) hab)

/-- Witness for C3 at a concrete input. -/
theorem C3_count_matches_list_witness :
    (count_posts_filtered storeC3 (some "A") none none none none none =
      (get_posts_filtered storeC3 (some "A") none none none none none none 0).length) ∧
    count_posts_filtered storeC3 (some "A") none none none none none = 1 :=
  ⟨C3_count_matches_list storeC3 (some "A") none none none none none (by decide),
    by decide⟩

/-- The grouped counts of the stats query sum to the number of matching
rows (summing a group-by partition recovers the whole). -/
theorem statsCounts_sum (s : Store) (tk ind sec sd ed : Option String) :
    ((statsCounts s tk ind sec sd ed).map (fun e => e.2)).sum =
      (statsRows s tk ind sec sd ed).length := by
  unfold statsCounts
  rw [List.map_map]
  have hcomp : ((fun e : String × ℕ => e.2) ∘ fun lb =>
      (lb, ((statsRows s tk ind sec sd ed).filter
        (fun p => p.sentiment_label = lb)).length)) = fun lb =>
      ((statsRows s tk ind sec sd ed).map (fun p => p.sentiment_label)).countP
        (fun x => decide (x = lb)) := by
    funext lb
    show ((statsRows s tk ind sec sd ed).filter
      (fun p => p.sentiment_label = lb)).length = _
    rw [List.countP_map, ← List.countP_eq_length_filter]
    rfl
  rw [hcomp, sum_countP_dedup, List.length_map]

/-- Claim C4: `get_sentiment_stats` never fails on an empty result set —
when no row matches the filter it returns total 0 with an empty
per-label mapping (and, structurally, the percentage computation is not
reached, so no division occurs); and on every non-empty result set the
total is positive and equals the number of matching rows, the per-label
counts sum to the total, and every label's percentage is
`round(count / total * 100, 2)`. -/
theorem C4_sentiment_stats_safe (s : Store) (tk ind sec sd ed : Option String) :
    (statsRows s tk ind sec sd ed = [] →
      get_sentiment_stats s tk ind sec sd ed = ⟨0, []⟩) ∧
    (statsRows s tk ind sec sd ed ≠ [] →
      (0 < (get_sentiment_stats s tk ind sec sd ed).total ∧
        (get_sentiment_stats s tk ind sec sd ed).total =
          (statsRows s tk ind sec sd ed).length ∧
        ((get_sentiment_stats s tk ind sec sd ed).by_sentiment.map
          (fun e => e.2.1)).sum = (get_sentiment_stats s tk ind sec sd ed).total ∧
        ∀ e ∈ (get_sentiment_stats s tk ind sec sd ed).by_sentiment,
          e.2.2 = pyRound2 ((e.2.1 : ℚ) /
            ((get_sentiment_stats s tk ind sec sd ed).total : ℚ) * 100))) := by
  constructor
  · intro h
    have hc : statsCounts s tk ind sec sd ed = [] := by
      unfold statsCounts
      rw [h]
      rfl
    simp [get_sentiment_stats, hc]
  · intro hne
    have hsum := statsCounts_sum s tk ind sec sd ed
    have hpos : 0 < ((statsCounts s tk ind sec sd ed).map (fun e => e.2)).sum := by
      rw [hsum]
      exact List.length_pos.mpr hne
    simp only [get_sentiment_stats]
    rw [if_pos hpos]
    refine ⟨hpos, hsum, ?_, ?_⟩
    · rw [List.map_map]
      rfl
    · intro e he
      obtain ⟨x, _, hxe⟩ := List.mem_map.mp he
      rw [← hxe]

/-- Witness for C4 at a concrete input: the store has a matching row, so
the non-empty branch of the claim applies. -/
theorem C4_sentiment_stats_safe_witness :
    statsRows storeC4 none none none none none ≠ [] ∧
    (0 < (get_sentiment_stats storeC4 none none none none none).total ∧
      (get_sentiment_stats storeC4 none none none none none).total =
        (statsRows storeC4 none none none none none).length ∧
      ((get_sentiment_stats storeC4 none none none none none).by_sentiment.map
        (fun e => e.2.1)).sum =
        (get_sentiment_stats storeC4 none none none none none).total ∧
      ∀ e ∈ (get_sentiment_stats storeC4 none none none none none).by_sentiment,
        e.2.2 = pyRound2 ((e.2.1 : ℚ) /
          ((get_sentiment_stats storeC4 none none none none none).total : ℚ) * 100)) :=
  ⟨by decide, (C4_sentiment_stats_safe storeC4 none none none none none).2 (by decide)⟩

/-- Claim C5: the most-positive (resp. most-negative) list of the market
pulse contains only tickers with at least 3 distinct linked posts of the
qualifying label in the date range (never fewer), is ordered by the
group's average sentiment score descending (resp. ascending), and holds
at most 10 entries. -/
theorem C5_market_pulse_min3 (s : Store) (sd ed : Option String) :
    (∀ sym ∈ (most_positive_stocks s sd ed).map PulseEntry.ticker,
      3 ≤ pulseCount s "positive" sd ed sym) ∧
    (most_positive_stocks s sd ed).length ≤ 10 ∧
    (most_positive_stocks s sd ed).Pairwise
      (fun a b =>
        pulseAvg s "positive" sd ed b.ticker ≤ pulseAvg s "positive" sd ed a.ticker) ∧
    (∀ sym ∈ (most_negative_stocks s sd ed).map PulseEntry.ticker,
      3 ≤ pulseCount s "negative" sd ed sym) ∧
    (most_negative_stocks s sd ed).length ≤ 10 ∧
    (most_negative_stocks s sd ed).Pairwise
      (fun a b =>
        pulseAvg s "negative" sd ed a.ticker ≤ pulseAvg s "negative" sd ed b.ticker) := by
  refine ⟨?_, ?_, ?_, ?_, ?_, ?_⟩
  · intro sym hsym
    rw [most_positive_stocks, List.map_map] at hsym
    obtain ⟨x, hx, hxe⟩ := List.mem_map.mp hsym
    have hxq : x ∈ pulseQualified s "positive" sd ed :=
      (List.perm_insertionSort _ _).mem_iff.mp (List.mem_of_mem_take hx)
    have h3 := (List.mem_filter.mp hxq).2
    rw [← hxe]
    simpa using h3
  · rw [most_positive_stocks, List.length_map]
    exact List.length_take_le 10 _
  · apply List.Pairwise.imp (fun h => h) ?_
    rw [most_positive_stocks]
    apply List.pairwise_map.mpr
    apply List.Pairwise.imp (fun h => h)
    exact List.Pairwise.sublist (List.take_sublist 10 _)
      (List.sorted_insertionSort (avgDesc s "positive" sd ed) _)
  · intro sym hsym
    rw [most_negative_stocks, List.map_map] at hsym
    obtain ⟨x, hx, hxe⟩ := List.mem_map.mp hsym
    have hxq : x ∈ pulseQualified s "negative" sd ed :=
      (List.perm_insertionSort _ _).mem_iff.mp (List.mem_of_mem_take hx)
    have h3 := (List.mem_filter.mp hxq).2
    rw [← hxe]
    simpa using h3
  · rw [most_negative_stocks, List.length_map]
    exact List.length_take_le 10 _
  · apply List.Pairwise.imp (fun h => h) ?_
    rw [most_negative_stocks]
    apply List.pairwise_map.mpr
    apply List.Pairwise.imp (fun h => h)
    exact List.Pairwise.sublist (List.take_sublist 10 _)
      (List.sorted_insertionSort (avgAsc s "negative" sd ed) _)

/-- Witness for C5 at a concrete input: AAPL appears in the
most-positive list and indeed has 3 qualifying posts. -/
theorem C5_market_pulse_min3_witness :
    ("AAPL" ∈ (most_positive_stocks storeC5 none none).map PulseEntry.ticker) ∧
    3 ≤ pulseCount storeC5 "positive" none none "AAPL" :=
  ⟨by decide, (C5_market_pulse_min3 storeC5 none none).1 "AAPL" (by decide)⟩

/-- The conflict update leaves the symbol of a row unchanged. -/
theorem updTicker_symbol (symbol : String) (c : Option String) (si ii : Option ℕ)
    (u : TickerRow) : (updTicker symbol c si ii u).symbol = u.symbol := by
  unfold updTicker
  by_cases h : u.symbol = symbol <;> simp [h]

/-- The conflict update leaves the id of a row unchanged. -/
theorem updTicker_id (symbol : String) (c : Option String) (si ii : Option ℕ)
    (u : TickerRow) : (updTicker symbol c si ii u).id = u.id := by
  unfold updTicker
  by_cases h : u.symbol = symbol <;> simp [h]

/-- The symbol column is untouched by the conflict update, rowwise. -/
theorem map_symbol_map_upd (symbol : String) (c : Option String) (si ii : Option ℕ)
    (l : List TickerRow) :
    (l.map (updTicker symbol c si ii)).map TickerRow.symbol = l.map TickerRow.symbol := by
  rw [List.map_map]
  congr 1
  funext u
  exact updTicker_symbol symbol c si ii u

/-- Finding by symbol commutes with the conflict update. -/
theorem find?_map_upd (symbol sym : String) (c : Option String) (si ii : Option ℕ)
    (l : List TickerRow) :
    (l.map (updTicker symbol c si ii)).find? (fun t => t.symbol = sym) =
      (l.find? (fun t => t.symbol = sym)).map (updTicker symbol c si ii) := by
  have hp : ((fun t : TickerRow => decide (t.symbol = sym)) ∘ updTicker symbol c si ii) =
      (fun t : TickerRow => decide (t.symbol = sym)) := by
    funext u
    simp only [Function.comp, updTicker_symbol]
  rw [List.find?_map, hp]

/-- After an upsert there is always a row carrying the upserted symbol. -/
theorem upsertTicker_mem (l : List TickerRow) (n : ℕ) (sym : String)
    (c : Option String) (si ii : Option ℕ) :
    ∃ u ∈ upsertTicker l n sym c si ii, u.symbol = sym := by
  unfold upsertTicker
  by_cases h : l.any (fun t => t.symbol = sym) = true
  · rw [if_pos h]
    obtain ⟨t, ht, hts⟩ := List.any_eq_true.mp h
    refine ⟨updTicker sym c si ii t, List.mem_map_of_mem _ ht, ?_⟩
    rw [updTicker_symbol]
    simpa using hts
  · rw [if_neg h]
    exact ⟨⟨n, sym, c, si, ii⟩, List.mem_append.mpr (Or.inr (List.mem_singleton.mpr rfl)),
      rfl⟩

/-- The id the final `SELECT id ... WHERE symbol` of the upsert returns:
the id of the first pre-existing row with the symbol on conflict, the
fresh rowid otherwise. -/
theorem upsertTicker_found_id (l : List TickerRow) (n : ℕ) (sym : String)
    (c : Option String) (si ii : Option ℕ) :
    ((upsertTicker l n sym c si ii).find? (fun t => t.symbol = sym)).map
        (fun t => t.id) =
      if l.any (fun t => t.symbol = sym) then
        (l.find? (fun t => t.symbol = sym)).map (fun t => t.id)
      else some n := by
  unfold upsertTicker
  by_cases h : l.any (fun t => t.symbol = sym) = true
  · rw [if_pos h, if_pos h, find?_map_upd, Option.map_map]
    congr 1
    funext u
    simp only [Function.comp, updTicker_id]
  · rw [if_neg h, if_neg h, List.find?_append]
    have hnone : l.find? (fun t => t.symbol = sym) = none := by
      rw [List.find?_eq_none]
      intro x hx
      simp only [decide_eq_true_eq]
      intro hxs
      exact h (List.any_eq_true.mpr ⟨x, hx, by simpa using hxs⟩)
    rw [hnone]
    simp [List.find?]

/-- Upserting preserves uniqueness of the symbol column. -/
theorem upsertTicker_nodup (l : List TickerRow) (n : ℕ) (sym : String)
    (c : Option String) (si ii : Option ℕ)
    (hnd : (l.map TickerRow.symbol).Nodup) :
    ((upsertTicker l n sym c si ii).map TickerRow.symbol).Nodup := by
  unfold upsertTicker
  by_cases h : l.any (fun t => t.symbol = sym) = true
  · rw [if_pos h, map_symbol_map_upd]
    exact hnd
  · rw [if_neg h, List.map_append]
    rw [List.nodup_append]
    refine ⟨hnd, List.nodup_singleton _, ?_⟩
    intro a ha hb
    simp only [List.map_cons, List.map_nil, List.mem_singleton] at hb
    subst hb
    obtain ⟨u, hu, hus⟩ := List.mem_map.mp ha
    exact h (List.any_eq_true.mpr ⟨u, hu, by simpa using hus⟩)

/-- After an upsert, every row carrying the upserted symbol holds the new
company value. -/
theorem upsertTicker_company (l : List TickerRow) (n : ℕ) (sym : String)
    (c : Option String) (si ii : Option ℕ) :
    ∀ u ∈ upsertTicker l n sym c si ii, u.symbol = sym → u.company_name = c := by
  unfold upsertTicker
  by_cases h : l.any (fun t => t.symbol = sym) = true
  · rw [if_pos h]
    intro u hu hus
    obtain ⟨v, _, hvu⟩ := List.mem_map.mp hu
    subst hvu
    unfold updTicker
    by_cases hv : v.symbol = sym
    · rw [if_pos hv]
    · rw [updTicker_symbol] at hus
      exact absurd hus hv
  · rw [if_neg h]
    intro u hu hus
    rcases List.mem_append.mp hu with hul | hur
    · exact absurd (List.any_eq_true.mpr ⟨u, hul, by simpa using hus⟩) h
    · rw [List.mem_singleton] at hur
      subst hur
      rfl

/-- The ticker table and returned id of `save_ticker`, as an upsert with
the sector and industry ids it computed. -/
theorem save_ticker_shape (s : Store) (sym : String) (c sec ind : Option String) :
    ∃ si ii, (save_ticker s sym c sec ind).1.tickers =
        upsertTicker s.tickers s.nextTickerId sym c si ii ∧
      (save_ticker s sym c sec ind).2 =
        (((upsertTicker s.tickers s.nextTickerId sym c si ii).find?
          (fun t => t.symbol = sym)).map (fun t => t.id)).getD 0 :=
  ⟨_, _, rfl, rfl⟩

/-- The sectors table after `save_ticker` with a truthy sector name is
the get-or-created table. -/
theorem save_ticker_sectors (s : Store) (sym : String) (c sec ind : Option String)
    (h : truthy sec) :
    (save_ticker s sym c sec ind).1.sectors =
      (getOrCreateName s.sectors s.nextSectorId (sec.getD "")).1 := by
  simp only [save_ticker]
  rw [if_pos h]

/-- The industries table after `save_ticker` with a truthy industry name
is the get-or-created table. -/
theorem save_ticker_industries (s : Store) (sym : String) (c sec ind : Option String)
    (h : truthy ind) :
    (save_ticker s sym c sec ind).1.industries =
      (getOrCreateName s.industries s.nextIndustryId (ind.getD "")).1 := by
  simp only [save_ticker]
  rw [if_pos h]

/-- Get-or-create leaves a row with the requested name in the table. -/
theorem getOrCreateName_mem (rows : List NameRow) (next : ℕ) (nm : String) :
    ∃ r ∈ (getOrCreateName rows next nm).1, r.name = nm := by
  unfold getOrCreateName
  cases hf : rows.find? (fun r => r.name = nm) with
  | some r =>
    exact ⟨r, List.mem_of_find?_eq_some hf, by simpa using List.find?_some hf⟩
  | none =>
    exact ⟨⟨next, nm⟩, List.mem_append.mpr (Or.inr (List.mem_singleton.mpr rfl)), rfl⟩

/-- Claim C6: `save_ticker` returns a stable id — calling it twice for
the same symbol (under the symbol uniqueness constraint, modelled from
the spec as a `Nodup` hypothesis) yields the same id and exactly one
catalog row for the symbol; the surviving row carries the
second-supplied company value (last-write-wins, so in particular a new
non-null value overwrites), and a supplied sector or industry name is
get-or-created in its own table as a side effect. -/
theorem C6_save_ticker_stable (s : Store) (symbol : String)
    (c1 c2 sec1 sec2 ind1 ind2 : Option String)
    (hnd : (s.tickers.map TickerRow.symbol).Nodup) :
    (save_ticker (save_ticker s symbol c1 sec1 ind1).1 symbol c2 sec2 ind2).2 =
      (save_ticker s symbol c1 sec1 ind1).2 ∧
    (((save_ticker (save_ticker s symbol c1 sec1 ind1).1 symbol c2 sec2
      ind2).1.tickers.filter (fun t => t.symbol = symbol)).length = 1) ∧
    (∀ u ∈ (save_ticker (save_ticker s symbol c1 sec1 ind1).1 symbol c2 sec2
      ind2).1.tickers, u.symbol = symbol → u.company_name = c2) ∧
    (truthy sec2 → ∃ r ∈ (save_ticker (save_ticker s symbol c1 sec1 ind1).1 symbol c2
      sec2 ind2).1.sectors, r.name = sec2.getD "") ∧
    (truthy ind2 → ∃ r ∈ (save_ticker (save_ticker s symbol c1 sec1 ind1).1 symbol c2
      sec2 ind2).1.industries, r.name = ind2.getD "") := by
  obtain ⟨si1, ii1, ht1, hid1⟩ := save_ticker_shape s symbol c1 sec1 ind1
  obtain ⟨si2, ii2, ht2, hid2⟩ :=
    save_ticker_shape (save_ticker s symbol c1 sec1 ind1).1 symbol c2 sec2 ind2
  have hconf2 : (save_ticker s symbol c1 sec1 ind1).1.tickers.any
      (fun t => t.symbol = symbol) = true := by
    rw [ht1]
    obtain ⟨u, hu, hus⟩ := upsertTicker_mem s.tickers s.nextTickerId symbol c1 si1 ii1
    exact List.any_eq_true.mpr ⟨u, hu, by simpa using hus⟩
  have hnd1 : ((save_ticker s symbol c1 sec1 ind1).1.tickers.map
      TickerRow.symbol).Nodup := by
    rw [ht1]
    exact upsertTicker_nodup _ _ _ _ _ _ hnd
  refine ⟨?_, ?_, ?_, ?_, ?_⟩
  · rw [hid2, hid1, upsertTicker_found_id, if_pos hconf2, ht1]
  · rw [ht2]
    have hle := filter_eq_length_le_one TickerRow.symbol symbol _
      (upsertTicker_nodup (save_ticker s symbol c1 sec1 ind1).1.tickers
        (save_ticker s symbol c1 sec1 ind1).1.nextTickerId symbol c2 si2 ii2 hnd1)
    have hge : 0 < ((upsertTicker (save_ticker s symbol c1 sec1 ind1).1.tickers
        (save_ticker s symbol c1 sec1 ind1).1.nextTickerId symbol c2 si2
        ii2).filter (fun t => t.symbol = symbol)).length := by
      obtain ⟨u, hu, hus⟩ := upsertTicker_mem
        (save_ticker s symbol c1 sec1 ind1).1.tickers
        (save_ticker s symbol c1 sec1 ind1).1.nextTickerId symbol c2 si2 ii2
      exact List.length_pos_iff_exists_mem.mpr
        ⟨u, List.mem_filter.mpr ⟨hu, by simpa using hus⟩⟩
    omega
  · intro u hu hus
    rw [ht2] at hu
    exact upsertTicker_company _ _ _ _ _ _ u hu hus
  · intro htr
    rw [save_ticker_sectors _ symbol c2 sec2 ind2 htr]
    exact getOrCreateName_mem _ _ _
  · intro htr
    rw [save_ticker_industries _ symbol c2 sec2 ind2 htr]
    exact getOrCreateName_mem _ _ _

/-- Witness for C6 at a concrete input: saving AAPL with company Apple
and then with a different company value yields the same id twice and one
catalog row showing the second value. -/
theorem C6_save_ticker_stable_witness :
    ((save_ticker (save_ticker storeC6 "AAPL" (some "Apple") none none).1 "AAPL"
        (some "Apple Inc.") none none).2 =
      (save_ticker storeC6 "AAPL" (some "Apple") none none).2) ∧
    (save_ticker (save_ticker storeC6 "AAPL" (some "Apple") none none).1 "AAPL"
        (some "Apple Inc.") none none).1.tickers =
      [⟨1, "AAPL", some "Apple Inc.", none, none⟩] :=
  ⟨(C6_save_ticker_stable storeC6 "AAPL" (some "Apple") (some "Apple Inc.") none none
      none none (by decide)).1, by decide⟩

/-- Claim C7: `save_post` fails for every input missing a required field,
surfacing an error value that carries the machine-readable name of the
missing key to the caller (the `KeyError` the source raises) rather than
silently dropping anything; and on a complete input it succeeds,
upserting by id (any existing row with the id is replaced by the new row,
whose fields are the supplied values, with the analysis timestamp set to
the current time) and returning the post id. -/
theorem C7_save_post_validation (s : Store) (pd : PostInput) (now : String) :
    (missingRequired pd →
      ∃ k, save_post s pd now = Except.error k ∧
        k ∈ ["id", "text", "created_at", "sentiment", "label", "score", "scores"]) ∧
    (∀ pid tx ca lbl sc scs,
      pd.id = some pid → pd.text = some tx → pd.created_at = some ca →
      pd.sentiment = some ⟨some lbl, some sc, some scs⟩ →
      ∃ row : PostRow,
        save_post s pd now = Except.ok
          ({ s with posts := s.posts.filter (fun r => r.id ≠ pid) ++ [row] }, pid) ∧
        row.id = pid ∧ row.text = tx ∧ row.created_at = ca ∧
        row.sentiment_label = lbl ∧ row.sentiment_score = sc ∧
        row.sentiment_scores = ScoresCell.obj scs ∧ row.analyzed_at = now) := by
  constructor
  · intro hmiss
    cases hid : pd.id with
    | none =>
      refine ⟨"id", ?_, by simp⟩
      simp only [save_post, req, hid]
      rfl
    | some pid =>
    cases htx : pd.text with
    | none =>
      refine ⟨"text", ?_, by simp⟩
      simp only [save_post, req, hid, htx]
      rfl
    | some tx =>
    cases hca : pd.created_at with
    | none =>
      refine ⟨"created_at", ?_, by simp⟩
      simp only [save_post, req, hid, htx, hca]
      rfl
    | some ca =>
    cases hsen : pd.sentiment with
    | none =>
      refine ⟨"sentiment", ?_, by simp⟩
      simp only [save_post, req, hid, htx, hca, hsen]
      rfl
    | some sen =>
    obtain ⟨senl, senscore, senscores⟩ := sen
    cases senl with
    | none =>
      refine ⟨"label", ?_, by simp⟩
      simp only [save_post, req, hid, htx, hca, hsen]
      rfl
    | some lbl =>
    cases senscore with
    | none =>
      refine ⟨"score", ?_, by simp⟩
      simp only [save_post, req, hid, htx, hca, hsen]
      rfl
    | some sc =>
    cases senscores with
    | none =>
      refine ⟨"scores", ?_, by simp⟩
      simp only [save_post, req, hid, htx, hca, hsen]
      rfl
    | some scs =>
      exfalso
      rcases hmiss with h | h | h | h | ⟨sen2, hsen2, h⟩ <;> simp_all
  · intro pid tx ca lbl sc scs hid htx hca hsen
    refine ⟨{ id := pid
              reddit_id := pd.reddit_id.getD ((pd.id.getD "").replace "reddit_" "")
              url := pd.url.getD (pd.link.getD "")
              subreddit := pd.subreddit.getD ""
              title := pd.title.getD ""
              text := tx
              author := pd.author.getD (pd.author_id.getD "unknown")
              created_at := ca
              timezone := pd.timezone.getD "UTC"
              sentiment_label := lbl
              sentiment_score := sc
              sentiment_scores := ScoresCell.obj scs
              analyzed_at := now }, ?_, rfl, rfl, rfl, rfl, rfl, rfl, rfl⟩
    simp only [save_post, req, hid, htx, hca, hsen]
    rfl

/-- Witness for C7 at concrete inputs: the incomplete input is rejected
with the missing key and the complete input is upserted. -/
theorem C7_save_post_validation_witness :
    (missingRequired inputC7bad ∧
      ∃ k, save_post storeC6 inputC7bad "t" = Except.error k ∧
        k ∈ ["id", "text", "created_at", "sentiment", "label", "score", "scores"]) ∧
    (inputC7.id = some "p9" ∧
      ∃ row : PostRow,
        save_post storeC6 inputC7 "t" = Except.ok
          ({ storeC6 with
              posts := storeC6.posts.filter (fun r => r.id ≠ "p9") ++ [row] }, "p9") ∧
        row.id = "p9" ∧ row.text = "body" ∧ row.created_at = "2024-01-01T00:00:00" ∧
        row.sentiment_label = "positive" ∧ row.sentiment_score = 1 ∧
        row.sentiment_scores = ScoresCell.obj [("positive", 1)] ∧
        row.analyzed_at = "t") :=
  ⟨⟨Or.inr (Or.inl rfl),
      (C7_save_post_validation storeC6 inputC7bad "t").1 (Or.inr (Or.inl rfl))⟩,
    ⟨rfl, (C7_save_post_validation storeC6 inputC7 "t").2 "p9" "body"
      "2024-01-01T00:00:00" "positive" 1 [("positive", 1)] rfl rfl rfl rfl⟩⟩

/-- The `%W` week number differs from the Monday-block index of the date
only by a constant of the calendar year. -/
theorem weekW_eq_block (d : Date) :
    weekW d = mondayBlock (daysFromCivil d) +
      (4 - daysFromCivil ⟨d.year, 1, 1⟩) / 7 := by
  unfold weekW mondayBlock wdMon
  omega

/-- Claim C9 (amended): at week granularity the bucket key is the
calendar year paired with the Monday-based `%W` week-of-year number, not
an ISO week-year identifier — two dates share a bucket exactly when they
lie in the same calendar year AND the same Monday-aligned (ISO) week.
In particular 2024-01-01 and 2024-01-08 (different ISO weeks) land in
distinct buckets, but an ISO week that spans a year boundary is split
into two buckets. -/
theorem C9_week_bucket_amended :
    (∀ d1 d2 : Date,
      (wkKey d1 = wkKey d2 ↔ (d1.year = d2.year ∧ sameISOWeek d1 d2))) ∧
    wkKey ⟨2024, 1, 1⟩ ≠ wkKey ⟨2024, 1, 8⟩ := by
  constructor
  · intro d1 d2
    unfold wkKey sameISOWeek
    rw [Prod.mk.injEq]
    constructor
    · rintro ⟨hy, hw⟩
      refine ⟨hy, ?_⟩
      have h1 := weekW_eq_block d1
      have h2 := weekW_eq_block d2
      have hj : daysFromCivil ⟨d1.year, 1, 1⟩ = daysFromCivil ⟨d2.year, 1, 1⟩ := by
        rw [hy]
      show mondayBlock (daysFromCivil d1) = mondayBlock (daysFromCivil d2)
      unfold mondayBlock at h1 h2 ⊢
      omega
    · rintro ⟨hy, hw⟩
      have hw2 : mondayBlock (daysFromCivil d1) = mondayBlock (daysFromCivil d2) := hw
      have h1 := weekW_eq_block d1
      have h2 := weekW_eq_block d2
      have hj : daysFromCivil ⟨d1.year, 1, 1⟩ = daysFromCivil ⟨d2.year, 1, 1⟩ := by
        rw [hy]
      unfold mondayBlock at h1 h2 hw2
      exact ⟨hy, by omega⟩
  · decide

/-- Witness for the amended C9 at concrete inputs: 2024-01-01 and
2024-01-05 lie in the same calendar year and the same ISO week, so they
share a bucket. -/
theorem C9_week_bucket_amended_witness :
    wkKey ⟨2024, 1, 1⟩ = wkKey ⟨2024, 1, 5⟩ :=
  (C9_week_bucket_amended.1 ⟨2024, 1, 1⟩ ⟨2024, 1, 5⟩).mpr ⟨rfl, by decide⟩

/-- Counterexample to C9 as stated: 2024-12-30 and 2025-01-01 lie in the
same ISO week, yet week-granularity trends put the two posts into two
distinct bucket entries (2024-W53 and 2025-W00), not one. -/
theorem C9_week_bucket_counterexample :
    sameISOWeek ⟨2024, 12, 30⟩ ⟨2025, 1, 1⟩ ∧
    parseYMD "2024-12-30T12:00:00" = some ⟨2024, 12, 30⟩ ∧
    parseYMD "2025-01-01T12:00:00" = some ⟨2025, 1, 1⟩ ∧
    wkKey ⟨2024, 12, 30⟩ = (2024, 53) ∧ wkKey ⟨2025, 1, 1⟩ = (2025, 0) ∧
    (get_sentiment_trends_week storeC9 none none none (some "2000") none "").length
      = 2 := by
  refine ⟨by decide, by decide, by decide, by decide, by decide, by decide⟩

/-- Members of a limited result page come from the unlimited list. -/
theorem mem_maybeTake {α : Type} (o : Option ℕ) (l : List α) (x : α)
    (hx : x ∈ maybeTake o l) : x ∈ l := by
  cases o with
  | none => exact hx
  | some n => exact List.mem_of_mem_take hx

/-- Claim C10: a stored row whose `sentiment_scores` column is NULL or
the empty string is returned by every read path with an empty score map
and every other field taken unchanged from the row, instead of failing;
each read path returns exactly `row_to_post` images of stored rows. -/
theorem C10_null_scores_safe (s : Store) (row : PostRow)
    (h : row.sentiment_scores = ScoresCell.null ∨
      row.sentiment_scores = ScoresCell.emptyStr) :
    ((row_to_post row).sentiment.scores = [] ∧
      (row_to_post row).sentiment.label = row.sentiment_label ∧
      (row_to_post row).sentiment.score = row.sentiment_score ∧
      (row_to_post row).id = row.id ∧ (row_to_post row).reddit_id = row.reddit_id ∧
      (row_to_post row).url = row.url ∧ (row_to_post row).subreddit = row.subreddit ∧
      (row_to_post row).title = row.title ∧ (row_to_post row).text = row.text ∧
      (row_to_post row).author = row.author ∧
      (row_to_post row).created_at = row.created_at ∧
      (row_to_post row).timezone = row.timezone ∧
      (row_to_post row).analyzed_at = row.analyzed_at) ∧
    (∀ limit offset, ∀ q ∈ get_recent_posts s limit offset,
      ∃ r ∈ s.posts, q = row_to_post r) ∧
    (∀ pid q, get_post_by_id s pid = some q → ∃ r ∈ s.posts, q = row_to_post r) ∧
    (∀ tk ind sec snt sd ed lim off,
      ∀ q ∈ get_posts_filtered s tk ind sec snt sd ed lim off,
      ∃ r ∈ s.posts, q = row_to_post r) := by
  refine ⟨?_, ?_, ?_, ?_⟩
  · rcases h with h | h <;> simp [row_to_post, h]
  · intro limit offset q hq
    obtain ⟨r, hr, hrq⟩ := List.mem_map.mp hq
    refine ⟨r, ?_, hrq.symm⟩
    have hr2 := List.mem_of_mem_drop (List.mem_of_mem_take hr)
    exact (List.perm_insertionSort createdDesc s.posts).mem_iff.mp hr2
  · intro pid q hq
    obtain ⟨r, hr, hrq⟩ := Option.map_eq_some'.mp hq
    exact ⟨r, List.mem_of_find?_eq_some hr, hrq.symm⟩
  · intro tk ind sec snt sd ed lim off q hq
    obtain ⟨r, hr, hrq⟩ := List.mem_map.mp hq
    refine ⟨r, ?_, hrq.symm⟩
    have hr2 := List.mem_of_mem_drop (mem_maybeTake lim _ r hr)
    exact dimJoinRows_subset s tk ind sec _ r
      ((mem_sortPosts_dedup (filterJoinRows s tk ind sec snt sd ed) r).mp hr2)

/-- Witness for C10 at a concrete input. -/
theorem C10_null_scores_safe_witness :
    (row_to_post rowC10).sentiment.scores = [] ∧
    (row_to_post rowC10).text = rowC10.text := by
  have h := C10_null_scores_safe ⟨[rowC10], [], [], [], [], [], [], 1, 1, 1⟩ rowC10
    (Or.inl rfl)
  exact ⟨h.1.1, h.1.2.2.2.2.2.2.2.2.1⟩

end FinSent
